import Mathlib

/-!
Verification development for `polars-query-server`, a load-testing harness:
`load_test/run_load_test.py` dispatches a batch of HTTP queries concurrently
(`asyncio.gather`), turns each parsed JSON response into a measurement record
(`send_query`), folds the records into summary statistics with polars
(`min`, `mean`, `quantile(0.95)`, `count/sum`) and writes a CSV.

The embedding below models Python floats as exact rationals (`ℚ`).  Division
in `ℚ` is total with `x / 0 = 0`; the one place the Python code can divide by
zero (`pl.count() / df["duration"].sum()`) is handled by theorems that only
inspect whether an error is raised, never the value produced there.
-/

/-- A Python value as it can appear in the `output` field of the parsed JSON
response body.  `pyStr` below mirrors Python `str` on these values:
`str` of a `str` is the identity (no quotes), `str(None) = "None"`,
booleans render capitalised, integers in decimal. -/
inductive PyVal where
  | str : String → PyVal
  | int : ℤ → PyVal
  | bool : Bool → PyVal
  | null : PyVal
deriving DecidableEq

/-- Python `str` applied to a `PyVal`. -/
def pyStr : PyVal → String
  | PyVal.str s => s
  | PyVal.int n => toString n
  | PyVal.bool b => if b then "True" else "False"
  | PyVal.null => "None"

/-- The parsed JSON response body as `send_query` reads it:
`data.get("output", "")` yields `output` when the key is present (else the
default `""`), and `data.get("cost")` yields `cost` (else Python `None`). -/
structure JsonResponse where
  output : Option PyVal
  cost : Option ℚ
deriving DecidableEq

/-- The dict returned by `send_query`:
`{"duration": duration, "size": size, "cost": data.get("cost")}`. -/
structure MeasurementRecord where
  duration : ℚ
  size : ℕ
  cost : Option ℚ
deriving DecidableEq

/-- `send_query` after the response arrived: the measured elapsed time is the
`duration` argument, `size = len(str(data.get("output", "")))`, and `cost`
is the response's `cost` field (absent ⇒ `None`). -/
def send_query (duration : ℚ) (data : JsonResponse) : MeasurementRecord :=
  { duration := duration
  , size := (pyStr (data.output.getD (PyVal.str ""))).length
  , cost := data.cost }

/-- Minimum of a list of rationals, as polars `min` on a non-empty column.
The `[]` value is junk (polars returns null there); every use below is guarded
by non-emptiness. -/
def listMin : List ℚ → ℚ
  | [] => 0
  | [x] => x
  | x :: y :: t => min x (listMin (y :: t))

/-- Maximum of a list of rationals, as polars `max` on a non-empty column. -/
def listMax : List ℚ → ℚ
  | [] => 0
  | [x] => x
  | x :: y :: t => max x (listMax (y :: t))

/-- Rounding to the nearest integer, halves up.  This agrees with Rust f64
`round` (halves away from zero) on the non-negative ranks polars feeds it. -/
def roundQ (q : ℚ) : ℤ := ⌊q + 1 / 2⌋

/-- The index polars' `quantile(0.95)` selects with its default `nearest`
interpolation: the fractional rank `0.95 * (n - 1)` rounded to the nearest
integer. -/
def p95Index (n : ℕ) : ℕ := (roundQ (19 / 20 * ((n : ℚ) - 1))).toNat

/-- The `duration` column of the DataFrame built from the gathered records. -/
def durationsOf (rs : List MeasurementRecord) : List ℚ :=
  rs.map (fun r => r.duration)

/-- Ascending sort of the duration column, as polars sorts before taking a
quantile. -/
def sortAsc (l : List ℚ) : List ℚ := List.insertionSort (· ≤ ·) l

/-- The one-row result of `df.select([...])`: columns `min`, `avg` (the
code's alias for the mean), `p95`, `throughput`. -/
structure Summary where
  min : ℚ
  avg : ℚ
  p95 : ℚ
  throughput : ℚ
deriving DecidableEq

/-- The aggregation in `main`:
`min` = smallest duration, `avg` = mean duration, `p95` = the sorted
duration at the nearest rank to `0.95 * (n-1)` (polars' default `nearest`
interpolation), `throughput` = row count divided by the duration sum. -/
def summarize (rs : List MeasurementRecord) : Summary :=
  let ds := durationsOf rs
  { min := listMin ds
  , avg := ds.sum / (ds.length : ℚ)
  , p95 := (sortAsc ds).getD (p95Index ds.length) 0
  , throughput := (ds.length : ℚ) / ds.sum }

/-- The unhandled exceptions a run can die with: an httpx transport error or
a JSON decode error escaping `send_query`, or polars' missing-column error
when `pl.col("duration")` is selected from the empty DataFrame. -/
inductive RunError where
  | dispatchFailure : RunError
  | columnNotFound : RunError
deriving DecidableEq

/-- What the network hands one `send_query` call: either the request or the
body parse raises (`failure`), or a measured duration together with a parsed
JSON body. -/
inductive DispatchInput where
  | failure : DispatchInput
  | response : ℚ → JsonResponse → DispatchInput
deriving DecidableEq

/-- One dispatched task's outcome.  `send_query` contains no exception
handling, so a transport or parse error escapes as `dispatchFailure`. -/
def dispatch : DispatchInput → Except RunError MeasurementRecord
  | DispatchInput.failure => Except.error RunError.dispatchFailure
  | DispatchInput.response d body => Except.ok (send_query d body)

/-- `asyncio.gather(*[send_query ...])` without `return_exceptions`: if every
task succeeds, the results in task order; if any task raises, the exception
propagates to the awaiter and no result list is produced.  (That the result
order is the argument order regardless of completion order is proved from the
slot-filling model `gatherSched` below.) -/
def gather : List DispatchInput → Except RunError (List MeasurementRecord)
  | [] => Except.ok []
  | x :: xs =>
    match dispatch x with
    | Except.error e => Except.error e
    | Except.ok r =>
      match gather xs with
      | Except.error e => Except.error e
      | Except.ok rs => Except.ok (r :: rs)

/-- `df.select([...])` on the DataFrame of gathered results.  On an empty
result list `pl.DataFrame([])` has no columns, so `pl.col("duration")`
raises a missing-column error; otherwise the summary row is computed
(with no emptiness or zero-sum check of its own). -/
def runAggregate (rs : List MeasurementRecord) : Except RunError Summary :=
  if rs.isEmpty then Except.error RunError.columnNotFound
  else Except.ok (summarize rs)

/-- The column labels of the printed summary row, in the order the
`select` lists them. -/
def summaryColumns : List String := ["min", "avg", "p95", "throughput"]

/-- What `write_csv` persists: the destination path and the shape of the
written table (its header and its row count). -/
structure PersistedReport where
  destination : String
  header : List String
  rowCount : ℕ
deriving DecidableEq

/-- `df.write_csv(Path("load_test_summary.csv"))`: the code writes `df` — the
raw per-request DataFrame with columns `duration`, `size`, `cost` and one row
per gathered record — not the one-row `summary` frame. -/
def write_csv (rs : List MeasurementRecord) : PersistedReport :=
  { destination := "load_test_summary.csv"
  , header := ["duration", "size", "cost"]
  , rowCount := rs.length }

/-- The whole of `main`: gather all dispatches, build the DataFrame, run the
summary `select` (line 26, which raises on an empty frame before anything is
written), then persist the CSV.  An `Except.error` models the process dying
on an unhandled exception with a non-zero exit status and no report written
at the configured destination. -/
def runMain (xs : List DispatchInput) : Except RunError PersistedReport :=
  match gather xs with
  | Except.error e => Except.error e
  | Except.ok rs =>
    match runAggregate rs with
    | Except.error e => Except.error e
    | Except.ok _ => Except.ok (write_csv rs)

/-- Placeholder record for out-of-range `getD` reads in the scheduling model;
never reached when the schedule is a permutation of the task indices. -/
def defaultRecord : MeasurementRecord :=
  { duration := 0, size := 0, cost := Option.none }

/-- Slot-filling: each completion event `(i, r)` stores task `i`'s record in
slot `i`, the way `asyncio.gather` stores each task's result at the task's
argument position as the tasks finish. -/
def fillSlots (ev : List (ℕ × MeasurementRecord))
    (slots : List (Option MeasurementRecord)) : List (Option MeasurementRecord) :=
  ev.foldl (fun s e => s.set e.1 (Option.some e.2)) slots

/-- The completion events of a run in which task `i`'s outcome is
`outcomes[i]` and the tasks finish in the order listed by `sched`. -/
def schedEvents (outcomes : List MeasurementRecord) (sched : List ℕ) :
    List (ℕ × MeasurementRecord) :=
  sched.map (fun i => (i, outcomes.getD i defaultRecord))

/-- `asyncio.gather`'s result slots after all tasks completed in the order
`sched`: start from all-unset slots and fill each as its task finishes. -/
def gatherSched (outcomes : List MeasurementRecord) (sched : List ℕ) :
    List (Option MeasurementRecord) :=
  fillSlots (schedEvents outcomes sched) (List.replicate outcomes.length Option.none)

/-- The parsed body of the stub response used in concrete runs: no `output`
key, no `cost` key. -/
def emptyBody : JsonResponse := { output := Option.none, cost := Option.none }

/-- The record `send_query` builds from `emptyBody` with a zero measured
duration. -/
def zeroRecord : MeasurementRecord := { duration := 0, size := 0, cost := Option.none }

/-- Records carrying the spec's known-values durations 0.1 … 0.5 s. -/
def knownRecs : List MeasurementRecord :=
  [ { duration := 1 / 10, size := 0, cost := Option.none }
  , { duration := 2 / 10, size := 0, cost := Option.none }
  , { duration := 3 / 10, size := 0, cost := Option.none }
  , { duration := 4 / 10, size := 0, cost := Option.none }
  , { duration := 5 / 10, size := 0, cost := Option.none } ]

/-- A successful default run: ten identical queries, ten records. -/
def knownRecs10 : List MeasurementRecord :=
  List.replicate 10 { duration := 1 / 10, size := 12, cost := Option.none }

/-- `listMin` on a singleton. -/
theorem listMin_singleton (x : ℚ) : listMin [x] = x := rfl

/-- `listMin` on a list of two or more elements. -/
theorem listMin_cons_cons (x y : ℚ) (t : List ℚ) :
    listMin (x :: y :: t) = min x (listMin (y :: t)) := rfl

/-- `listMax` on a singleton. -/
theorem listMax_singleton (x : ℚ) : listMax [x] = x := rfl

/-- `listMax` on a list of two or more elements. -/
theorem listMax_cons_cons (x y : ℚ) (t : List ℚ) :
    listMax (x :: y :: t) = max x (listMax (y :: t)) := rfl

/-- The minimum is a lower bound for every member. -/
theorem listMin_le_of_mem : ∀ (l : List ℚ) (a : ℚ), a ∈ l → listMin l ≤ a
  | [], a, h => absurd h (List.not_mem_nil a)
  | [x], a, h => by
    rw [List.mem_singleton] at h
    rw [h, listMin_singleton]
  | x :: y :: t, a, h => by
    rw [listMin_cons_cons]
    rcases List.mem_cons.mp h with h1 | h2
    · rw [h1]
      exact min_le_left _ _
    · exact le_trans (min_le_right _ _) (listMin_le_of_mem (y :: t) a h2)

/-- The minimum of a non-empty list is one of its members. -/
theorem listMin_mem : ∀ (l : List ℚ), l ≠ [] → listMin l ∈ l
  | [], h => absurd rfl h
  | [x], _ => by
    rw [listMin_singleton]
    exact List.mem_singleton_self x
  | x :: y :: t, _ => by
    rw [listMin_cons_cons]
    rcases le_total x (listMin (y :: t)) with h | h
    · rw [min_eq_left h]
      exact List.mem_cons_self _ _
    · rw [min_eq_right h]
      exact List.mem_cons_of_mem _ (listMin_mem (y :: t) (by simp))

/-- The maximum is an upper bound for every member. -/
theorem le_listMax_of_mem : ∀ (l : List ℚ) (a : ℚ), a ∈ l → a ≤ listMax l
  | [], a, h => absurd h (List.not_mem_nil a)
  | [x], a, h => by
    rw [List.mem_singleton] at h
    rw [h, listMax_singleton]
  | x :: y :: t, a, h => by
    rw [listMax_cons_cons]
    rcases List.mem_cons.mp h with h1 | h2
    · rw [h1]
      exact le_max_left _ _
    · exact le_trans (le_listMax_of_mem (y :: t) a h2) (le_max_right _ _)

/-- The maximum of a non-empty list is one of its members. -/
theorem listMax_mem : ∀ (l : List ℚ), l ≠ [] → listMax l ∈ l
  | [], h => absurd rfl h
  | [x], _ => by
    rw [listMax_singleton]
    exact List.mem_singleton_self x
  | x :: y :: t, _ => by
    rw [listMax_cons_cons]
    rcases le_total x (listMax (y :: t)) with h | h
    · rw [max_eq_right h]
      exact List.mem_cons_of_mem _ (listMax_mem (y :: t) (by simp))
    · rw [max_eq_left h]
      exact List.mem_cons_self _ _

/-- The sum of a non-empty list is at least its minimum times its length. -/
theorem listMin_mul_length_le_sum : ∀ (l : List ℚ), l ≠ [] →
    listMin l * (l.length : ℚ) ≤ l.sum
  | [], h => absurd rfl h
  | [x], _ => by simp [listMin_singleton]
  | x :: y :: t, _ => by
    have ih := listMin_mul_length_le_sum (y :: t) (by simp)
    rw [listMin_cons_cons, List.sum_cons]
    have h1 : min x (listMin (y :: t)) ≤ x := min_le_left _ _
    have h2 : min x (listMin (y :: t)) * (((y :: t).length : ℕ) : ℚ) ≤
        listMin (y :: t) * (((y :: t).length : ℕ) : ℚ) :=
      mul_le_mul_of_nonneg_right (min_le_right _ _) (by positivity)
    have hlen : (((x :: y :: t).length : ℕ) : ℚ) = (((y :: t).length : ℕ) : ℚ) + 1 := by
      push_cast [List.length_cons]
      ring
    rw [hlen, mul_add, mul_one]
    linarith

/-- The sum of a non-empty list is at most its maximum times its length. -/
theorem sum_le_listMax_mul_length : ∀ (l : List ℚ), l ≠ [] →
    l.sum ≤ listMax l * (l.length : ℚ)
  | [], h => absurd rfl h
  | [x], _ => by simp [listMax_singleton]
  | x :: y :: t, _ => by
    have ih := sum_le_listMax_mul_length (y :: t) (by simp)
    rw [listMax_cons_cons, List.sum_cons]
    have h1 : x ≤ max x (listMax (y :: t)) := le_max_left _ _
    have h2 : listMax (y :: t) * (((y :: t).length : ℕ) : ℚ) ≤
        max x (listMax (y :: t)) * (((y :: t).length : ℕ) : ℚ) :=
      mul_le_mul_of_nonneg_right (le_max_right _ _) (by positivity)
    have hlen : (((x :: y :: t).length : ℕ) : ℚ) = (((y :: t).length : ℕ) : ℚ) + 1 := by
      push_cast [List.length_cons]
      ring
    rw [hlen, mul_add, mul_one]
    linarith

/-- The rank polars' `nearest` interpolation rounds to stays inside the
column: `round (0.95 * (n-1)) < n` for non-empty columns. -/
theorem p95Index_lt (n : ℕ) (h : 0 < n) : p95Index n < n := by
  have hq : (19 : ℚ) / 20 * ((n : ℚ) - 1) + 1 / 2 < (n : ℚ) := by
    have h0 : (0 : ℚ) ≤ (n : ℚ) := Nat.cast_nonneg n
    linarith
  have hfloor : roundQ (19 / 20 * ((n : ℚ) - 1)) < (n : ℤ) := by
    unfold roundQ
    refine Int.floor_lt.mpr ?_
    push_cast
    linarith
  unfold p95Index
  omega

/-- The ascending sort is a permutation of the column. -/
theorem sortAsc_perm (l : List ℚ) : (sortAsc l).Perm l :=
  List.perm_insertionSort _ l

/-- Sorting is invariant under permutation of the input. -/
theorem sortAsc_eq_of_perm (l l' : List ℚ) (h : l.Perm l') : sortAsc l = sortAsc l' :=
  List.eq_of_perm_of_sorted ((sortAsc_perm l).trans (h.trans (sortAsc_perm l').symm))
    (List.sorted_insertionSort _ l) (List.sorted_insertionSort _ l')

/-- The minimum is invariant under permutation of the input. -/
theorem listMin_eq_of_perm (l l' : List ℚ) (h : l.Perm l') : listMin l = listMin l' := by
  rcases eq_or_ne l [] with rfl | hne
  · have hnil : l' = [] := by
      have hlen := h.length_eq
      simpa [List.length_eq_zero] using hlen.symm
    rw [hnil]
  · have hne' : l' ≠ [] := by
      intro hx
      apply hne
      have hlen := h.length_eq
      rw [hx] at hlen
      simpa [List.length_eq_zero] using hlen
    refine le_antisymm ?_ ?_
    · exact listMin_le_of_mem l _ (h.mem_iff.mpr (listMin_mem l' hne'))
    · exact listMin_le_of_mem l' _ (h.mem_iff.mp (listMin_mem l hne))

/-- The duration column of a non-empty record list is non-empty. -/
theorem durationsOf_ne_nil (rs : List MeasurementRecord) (h : rs ≠ []) :
    durationsOf rs ≠ [] := by
  simpa [durationsOf]

/-- The `p95` the aggregator outputs is one of the recorded durations:
`nearest` interpolation selects an element, it never interpolates. -/
theorem p95_mem (rs : List MeasurementRecord) (h : rs ≠ []) :
    (summarize rs).p95 ∈ durationsOf rs := by
  have hds : durationsOf rs ≠ [] := durationsOf_ne_nil rs h
  have hpos : 0 < (durationsOf rs).length := List.length_pos.mpr hds
  have hlt : p95Index (durationsOf rs).length < (sortAsc (durationsOf rs)).length := by
    rw [sortAsc, List.length_insertionSort]
    exact p95Index_lt _ hpos
  have hget : (summarize rs).p95 =
      (sortAsc (durationsOf rs)).get ⟨p95Index (durationsOf rs).length, hlt⟩ := by
    show (sortAsc (durationsOf rs)).getD (p95Index (durationsOf rs).length) 0 = _
    rw [List.getD_eq_getElem?_getD, List.getElem?_eq_getElem hlt]
    rfl
  rw [hget]
  exact (sortAsc_perm (durationsOf rs)).mem_iff.mp (List.get_mem _ _ _)

/-- Filling no slots changes nothing. -/
theorem fillSlots_nil (slots : List (Option MeasurementRecord)) :
    fillSlots [] slots = slots := rfl

/-- Filling one slot, then the rest. -/
theorem fillSlots_cons (e : ℕ × MeasurementRecord) (ev : List (ℕ × MeasurementRecord))
    (slots : List (Option MeasurementRecord)) :
    fillSlots (e :: ev) slots = fillSlots ev (slots.set e.1 (Option.some e.2)) := rfl

/-- Slot filling never changes the number of slots. -/
theorem fillSlots_length : ∀ (ev : List (ℕ × MeasurementRecord))
    (slots : List (Option MeasurementRecord)),
    (fillSlots ev slots).length = slots.length
  | [], slots => rfl
  | e :: ev, slots => by
    rw [fillSlots_cons, fillSlots_length ev, List.length_set]

/-- A slot no completion event writes to keeps its initial value. -/
theorem fillSlots_getElem_of_not_mem : ∀ (ev : List (ℕ × MeasurementRecord))
    (slots : List (Option MeasurementRecord)) (j : ℕ),
    (∀ v, (j, v) ∉ ev) → (fillSlots ev slots)[j]? = slots[j]?
  | [], _, _, _ => rfl
  | e :: ev, slots, j, h => by
    have hj : e.1 ≠ j := by
      intro hx
      exact h e.2 (by rw [← hx]; exact List.mem_cons_self _ _)
    have hrest : ∀ v, (j, v) ∉ ev := fun v hv => h v (List.mem_cons_of_mem _ hv)
    rw [fillSlots_cons, fillSlots_getElem_of_not_mem ev _ j hrest,
      List.getElem?_set_ne hj]

/-- After a run whose completion events hit pairwise distinct slots, the slot
a completion event did write to holds that event's record. -/
theorem fillSlots_getElem_of_mem : ∀ (ev : List (ℕ × MeasurementRecord))
    (slots : List (Option MeasurementRecord)) (j : ℕ) (v : MeasurementRecord),
    (ev.map Prod.fst).Nodup → (j, v) ∈ ev → j < slots.length →
    (fillSlots ev slots)[j]? = Option.some (Option.some v)
  | [], _, _, _, _, h, _ => absurd h (List.not_mem_nil _)
  | e :: ev, slots, j, v, hnd, hmem, hlen => by
    rw [List.map_cons, List.nodup_cons] at hnd
    rcases List.mem_cons.mp hmem with h1 | h2
    · subst h1
      have hfst : ∀ w, (j, w) ∉ ev := by
        intro w hw
        have hjm : j ∈ List.map Prod.fst ev := List.mem_map_of_mem Prod.fst hw
        exact hnd.1 hjm
      rw [fillSlots_cons, fillSlots_getElem_of_not_mem ev _ j hfst]
      exact List.getElem?_set_eq_of_lt _ hlen
    · have hj : e.1 ≠ j := by
        intro hx
        apply hnd.1
        rw [hx]
        exact List.mem_map_of_mem Prod.fst h2
      rw [fillSlots_cons]
      exact fillSlots_getElem_of_mem ev _ j v hnd.2 h2 (by rw [List.length_set]; exact hlen)

/-- The slot indices of a run's completion events are the schedule itself. -/
theorem schedEvents_map_fst (outcomes : List MeasurementRecord) :
    ∀ (sched : List ℕ), (schedEvents outcomes sched).map Prod.fst = sched
  | [] => rfl
  | i :: s => by
    have ih := schedEvents_map_fst outcomes s
    show i :: (schedEvents outcomes s).map Prod.fst = i :: s
    rw [ih]

/-- Claim C10: whatever order the concurrent dispatches complete in (any
permutation `sched` of the task indices), `asyncio.gather`'s result slots end
up holding, at position `i`, exactly the outcome of the `i`-th query of the
input list. -/
theorem gather_preserves_input_order (outcomes : List MeasurementRecord) (sched : List ℕ)
    (h : sched.Perm (List.range outcomes.length)) :
    gatherSched outcomes sched = outcomes.map Option.some := by
  have hfst := schedEvents_map_fst outcomes sched
  have hnd : sched.Nodup := h.nodup_iff.mpr (List.nodup_range _)
  apply List.ext_getElem?
  intro j
  by_cases hj : j < outcomes.length
  · have hjm : j ∈ sched := h.mem_iff.mpr (List.mem_range.mpr hj)
    have hmem : (j, outcomes.getD j defaultRecord) ∈ schedEvents outcomes sched :=
      List.mem_map_of_mem _ hjm
    have hnodup : ((schedEvents outcomes sched).map Prod.fst).Nodup := by
      rw [hfst]
      exact hnd
    have hslots : j <
        (List.replicate outcomes.length (Option.none : Option MeasurementRecord)).length := by
      simpa using hj
    rw [gatherSched, fillSlots_getElem_of_mem _ _ j _ hnodup hmem hslots,
      List.getElem?_map, List.getElem?_eq_getElem hj,
      List.getD_eq_getElem?_getD, List.getElem?_eq_getElem hj]
    rfl
  · have hnone : ∀ v, (j, v) ∉ schedEvents outcomes sched := by
      intro v hv
      rcases List.mem_map.mp hv with ⟨i, hi, hvi⟩
      have hij : i = j := congrArg Prod.fst hvi
      rw [hij] at hi
      exact hj (List.mem_range.mp (h.mem_iff.mp hi))
    have h1 : (List.replicate outcomes.length
        (Option.none : Option MeasurementRecord))[j]? = Option.none :=
      List.getElem?_eq_none (by simpa using Nat.le_of_not_lt hj)
    have h2 : (List.map Option.some outcomes)[j]? = Option.none :=
      List.getElem?_eq_none (by simpa using Nat.le_of_not_lt hj)
    rw [gatherSched, fillSlots_getElem_of_not_mem _ _ j hnone, h1, h2]

/-- Claim C1, counterexample: for the spec's known durations
`[0.1, 0.2, 0.3, 0.4, 0.5]` the code's p95 is `0.5`, not the linearly
interpolated `0.48` the claim states — `quantile(0.95)` is called without an
interpolation argument, and polars' default is `nearest`, which rounds the
fractional rank `3.8` to index `4`. -/
theorem p95_known_values_not_interpolated :
    (summarize knownRecs).p95 = 1 / 2 ∧ (summarize knownRecs).p95 ≠ 48 / 100 := by
  constructor <;>
    norm_num [summarize, durationsOf, knownRecs, sortAsc, p95Index, roundQ,
      List.insertionSort, List.orderedInsert, List.getD,
      show Int.toNat 4 = 4 from rfl]

/-- Claim C1 (amended): for the known durations the aggregator's p95 equals
`0.5`; for every non-empty duration sequence, p95 is the element of the
sorted sequence at index `round(0.95 * (n - 1))` (nearest-rank selection,
polars' default interpolation) — in particular always one of the recorded
durations, never an interpolated intermediate value. -/
theorem p95_nearest_rank :
    (summarize knownRecs).p95 = 1 / 2 ∧
    ∀ (rs : List MeasurementRecord), rs ≠ [] →
      (summarize rs).p95 =
        (sortAsc (durationsOf rs)).getD (p95Index (durationsOf rs).length) 0 ∧
      (summarize rs).p95 ∈ durationsOf rs := by
  refine ⟨?_, fun rs h => ⟨rfl, p95_mem rs h⟩⟩
  norm_num [summarize, durationsOf, knownRecs, sortAsc, p95Index, roundQ,
    List.insertionSort, List.orderedInsert, List.getD,
    show Int.toNat 4 = 4 from rfl]

/-- Witness for `p95_nearest_rank` at the known durations. -/
theorem p95_nearest_rank_witness :
    (summarize knownRecs).p95 =
      (sortAsc (durationsOf knownRecs)).getD (p95Index (durationsOf knownRecs).length) 0 ∧
    (summarize knownRecs).p95 ∈ durationsOf knownRecs :=
  p95_nearest_rank.2 knownRecs (by decide)

/-- Claim C2 (code bug): on a successful ten-request run the persisted file at
`load_test_summary.csv` is the raw per-request DataFrame — ten rows with
columns `duration`, `size`, `cost` — not a single row with columns
`min`, `mean`, `p95`, `throughput`; the computed summary is only printed,
and even its columns label the mean `avg`, not `mean`. -/
theorem report_writes_raw_records :
    (write_csv knownRecs10).destination = "load_test_summary.csv" ∧
    (write_csv knownRecs10).rowCount = 10 ∧
    (write_csv knownRecs10).header = ["duration", "size", "cost"] ∧
    (write_csv knownRecs10).header ≠ ["min", "mean", "p95", "throughput"] ∧
    summaryColumns ≠ ["min", "mean", "p95", "throughput"] := by
  refine ⟨rfl, rfl, rfl, by decide, by decide⟩

/-- Claim C3 (amended): aggregating zero records dies with polars' unhandled
missing-column error — there is no dedicated empty-input error in the code —
before any report is written (non-zero exit); and the claim's "equivalently,
the sum of durations is zero" fails: a non-empty record set whose durations
sum to zero raises nothing, the throughput division by zero is performed and
the report is still written. -/
theorem empty_and_zero_sum_aggregation :
    runMain [] = Except.error RunError.columnNotFound ∧
    (∀ rs : List MeasurementRecord,
      runAggregate rs = Except.error RunError.columnNotFound ↔ rs = []) ∧
    (durationsOf [zeroRecord]).sum = 0 ∧
    runMain [DispatchInput.response 0 emptyBody] = Except.ok (write_csv [zeroRecord]) := by
  refine ⟨rfl, ?_, by simp [durationsOf, zeroRecord], rfl⟩
  intro rs
  cases rs with
  | nil => simp [runAggregate]
  | cons r t => simp [runAggregate]

/-- Claim C3, counterexample: a record set whose durations sum to zero (one
record of duration 0) is not rejected with any error — the run completes and
writes the report, dividing by zero inside `throughput`. -/
theorem zero_sum_not_rejected :
    (durationsOf [zeroRecord]).sum = 0 ∧
    runMain [DispatchInput.response 0 emptyBody] = Except.ok (write_csv [zeroRecord]) :=
  ⟨by simp [durationsOf, zeroRecord], rfl⟩

/-- Claim C4 (amended): `send_query` catches nothing, so a transport failure
or malformed response body raises out of the dispatch; `asyncio.gather`
(called without `return_exceptions`) propagates that error past the
Coordinator, no result list is produced, and the run aborts — per-request
errors are not recorded locally and do escape. -/
theorem dispatch_error_escapes : ∀ (xs : List DispatchInput),
    DispatchInput.failure ∈ xs → gather xs = Except.error RunError.dispatchFailure
  | [], h => absurd h (List.not_mem_nil _)
  | DispatchInput.failure :: xs, _ => rfl
  | DispatchInput.response d b :: xs, h => by
    have hx : DispatchInput.failure ∈ xs := by
      rcases List.mem_cons.mp h with h1 | h2
      · cases h1
      · exact h2
    show (match gather xs with
      | Except.error e => Except.error e
      | Except.ok rs => Except.ok (send_query d b :: rs)) =
      Except.error RunError.dispatchFailure
    rw [dispatch_error_escapes xs hx]

/-- Witness for `dispatch_error_escapes`: one failing dispatch in a batch of
two makes the whole gather error out. -/
theorem dispatch_error_escapes_witness :
    gather [DispatchInput.failure, DispatchInput.response 2 emptyBody] =
      Except.error RunError.dispatchFailure :=
  dispatch_error_escapes _ (List.mem_cons_self _ _)

/-- Claim C4, counterexample: with one good dispatch and one failing one, the
failure escapes the gather and aborts the whole run — the other dispatch's
record is not collected, contradicting the claim that the error is recorded
locally and never escapes the Coordinator. -/
theorem failure_aborts_batch :
    gather [DispatchInput.response 1 emptyBody, DispatchInput.failure] =
      Except.error RunError.dispatchFailure ∧
    runMain [DispatchInput.response 1 emptyBody, DispatchInput.failure] =
      Except.error RunError.dispatchFailure :=
  ⟨rfl, rfl⟩

/-- Claim C5: for every non-empty record set the aggregator's output
satisfies `min ≤ mean ≤ max` and `min ≤ p95 ≤ max` over the durations. -/
theorem aggregator_bounds (rs : List MeasurementRecord) (h : rs ≠ []) :
    (summarize rs).min ≤ (summarize rs).avg ∧
    (summarize rs).avg ≤ listMax (durationsOf rs) ∧
    (summarize rs).min ≤ (summarize rs).p95 ∧
    (summarize rs).p95 ≤ listMax (durationsOf rs) := by
  have hds : durationsOf rs ≠ [] := durationsOf_ne_nil rs h
  have hpos : 0 < (durationsOf rs).length := List.length_pos.mpr hds
  have hposq : (0 : ℚ) < ((durationsOf rs).length : ℚ) := by exact_mod_cast hpos
  have hmin : (summarize rs).min = listMin (durationsOf rs) := rfl
  have havg : (summarize rs).avg = (durationsOf rs).sum / ((durationsOf rs).length : ℚ) := rfl
  have hp95mem := p95_mem rs h
  refine ⟨?_, ?_, ?_, ?_⟩
  · rw [hmin, havg, le_div_iff₀ hposq]
    exact listMin_mul_length_le_sum _ hds
  · rw [havg, div_le_iff₀ hposq]
    exact sum_le_listMax_mul_length _ hds
  · rw [hmin]
    exact listMin_le_of_mem _ _ hp95mem
  · exact le_listMax_of_mem _ _ hp95mem

/-- Witness for `aggregator_bounds` at the known durations. -/
theorem aggregator_bounds_witness :
    (summarize knownRecs).min ≤ (summarize knownRecs).avg ∧
    (summarize knownRecs).avg ≤ listMax (durationsOf knownRecs) ∧
    (summarize knownRecs).min ≤ (summarize knownRecs).p95 ∧
    (summarize knownRecs).p95 ≤ listMax (durationsOf knownRecs) :=
  aggregator_bounds knownRecs (by decide)

/-- Claim C6: the aggregation is a pure, order-independent reduction — any
permutation of the record set yields the same summary row, and evaluating it
twice on the same input is (definitionally) the same value. -/
theorem aggregator_pure (rs rs' : List MeasurementRecord) (h : rs.Perm rs') :
    summarize rs = summarize rs' ∧ summarize rs = summarize rs := by
  refine ⟨?_, rfl⟩
  have hd : (durationsOf rs).Perm (durationsOf rs') := h.map _
  have h1 : listMin (durationsOf rs) = listMin (durationsOf rs') :=
    listMin_eq_of_perm _ _ hd
  have h2 : (durationsOf rs).sum = (durationsOf rs').sum := hd.sum_eq
  have h3 : (durationsOf rs).length = (durationsOf rs').length := hd.length_eq
  have h4 : sortAsc (durationsOf rs) = sortAsc (durationsOf rs') :=
    sortAsc_eq_of_perm _ _ hd
  simp [summarize, h1, h2, h3, h4]

/-- Witness for `aggregator_pure`: swapping two concrete records. -/
theorem aggregator_pure_witness :
    summarize [zeroRecord, { duration := 1, size := 3, cost := Option.some 2 }] =
      summarize [{ duration := 1, size := 3, cost := Option.some 2 }, zeroRecord] ∧
    summarize [zeroRecord, { duration := 1, size := 3, cost := Option.some 2 }] =
      summarize [zeroRecord, { duration := 1, size := 3, cost := Option.some 2 }] :=
  aggregator_pure _ _ (List.Perm.swap _ _ _)

/-- Claim C7: the recorded `size` is the character length of the stringified
`output` field (`len(str(...))`), zero when `output` is absent (the `get`
default `""` stringifies to itself), and a missing `cost` is recorded as
null. -/
theorem responseSize_cost_semantics (d : ℚ) (body : JsonResponse) :
    (body.output = Option.none → (send_query d body).size = 0) ∧
    (∀ v, body.output = Option.some v →
      (send_query d body).size = (pyStr v).length) ∧
    (body.cost = Option.none → (send_query d body).cost = Option.none) := by
  refine ⟨?_, ?_, ?_⟩
  · intro h
    simp [send_query, h, pyStr]
  · intro v h
    simp [send_query, h]
  · intro h
    simp [send_query, h]

/-- Witness for `responseSize_cost_semantics` on concrete bodies. -/
theorem responseSize_cost_semantics_witness :
    (send_query 1 emptyBody).size = 0 ∧
    (send_query 1 { output := Option.some (PyVal.int 42), cost := Option.none }).size =
      (pyStr (PyVal.int 42)).length ∧
    (send_query 1 emptyBody).cost = Option.none :=
  ⟨(responseSize_cost_semantics 1 emptyBody).1 rfl,
   (responseSize_cost_semantics 1
      { output := Option.some (PyVal.int 42), cost := Option.none }).2.1 (PyVal.int 42) rfl,
   (responseSize_cost_semantics 1 emptyBody).2.2 rfl⟩

/-- Claim C8: whenever the gather completes successfully the record list the
aggregator consumes has exactly one record per dispatched query — `gather`
returns only after every task is resolved, so a partial set is never
aggregated (a failing task instead aborts the run, see `failure_aborts_batch`). -/
theorem gather_ok_length : ∀ (xs : List DispatchInput) (rs : List MeasurementRecord),
    gather xs = Except.ok rs → rs.length = xs.length
  | [], rs, h => by
    have h' : ([] : List MeasurementRecord) = rs := by simpa [gather] using h
    rw [← h']
    rfl
  | DispatchInput.failure :: xs, rs, h => by
    simp [gather, dispatch] at h
  | DispatchInput.response d b :: xs, rs, h => by
    cases hg : gather xs with
    | error e =>
      rw [show gather (DispatchInput.response d b :: xs) =
        (match gather xs with
          | Except.error e => Except.error e
          | Except.ok rs => Except.ok (send_query d b :: rs)) from rfl, hg] at h
      cases h
    | ok rs2 =>
      rw [show gather (DispatchInput.response d b :: xs) =
        (match gather xs with
          | Except.error e => Except.error e
          | Except.ok rs => Except.ok (send_query d b :: rs)) from rfl, hg] at h
      have h2 : send_query d b :: rs2 = rs := by
        cases h
        rfl
      rw [← h2, List.length_cons, List.length_cons,
        gather_ok_length xs rs2 hg]

/-- Witness for `gather_ok_length` on a concrete two-query batch. -/
theorem gather_ok_length_witness :
    ([send_query 1 emptyBody, send_query 2 emptyBody] : List MeasurementRecord).length =
      ([DispatchInput.response 1 emptyBody, DispatchInput.response 2 emptyBody] :
        List DispatchInput).length :=
  gather_ok_length [DispatchInput.response 1 emptyBody, DispatchInput.response 2 emptyBody]
    [send_query 1 emptyBody, send_query 2 emptyBody] rfl

/-- Witness for `gather_preserves_input_order`: five records completing in
the order 4, 2, 0, 3, 1 still land in input order. -/
theorem gather_preserves_input_order_witness :
    gatherSched knownRecs [4, 2, 0, 3, 1] = knownRecs.map Option.some :=
  gather_preserves_input_order knownRecs [4, 2, 0, 3, 1] (by decide)
